import Mathlib

/-!
# Verification of the skycache snapshot / incremental-cache engine

Shallow embedding of the core of the `skycache` Python package:

* `managed.py`   — `ManagedFile` (lazy hash/mtime fingerprints, `is_same_file_with`),
  `ManagedDirectory` (directory expansion rule);
* `snapshot.py`  — `SnapshotTableKey`, `get_updates`, `Snapshot.as_hash_table`,
  `Snapshot.calc_incremental_difference`, `Snapshot.cache_increments`, `Snapshot._copy`;
* `database.py`  — the history relation (`UNIQUE(path,key,tag)`, INSERT OR REPLACE)
  and `search_history`;
* `context.py`   — the `Resource` registry (`_add`/`add`, `as_dict`, `files`).

Python `None` is modelled with `Option`, file mtimes and run timestamps with `Int`
(only equality and ordering of timestamps matter to the code), and the file system
is an explicit total environment `FS` supplying the hash / mtime / raw content of
every path (all scenarios proved below concern paths that exist; constructor-time
existence checks are modelled separately by `FS.kindOf` where a claim needs them).
-/

namespace Skycache

/-- Explicit file-system environment: content hash, modification time and raw
bytes of each path, plus the kind of file-system object living at a path and a
glob enumeration (used by directory expansion).  All functions are total; the
scenarios treated here only involve paths that exist. -/
structure FS where
  hashOf : String → String
  mtimeOf : String → Int
  contentOf : String → String
  kindOf : String → Nat      -- 0 = missing, 1 = regular file, 2 = directory
  globOf : String → String → List String

/-- `managed.ManagedFile`: immutable identity `path` with optional logical
`key`, producing-directory `pfx` (the Python attribute is called `prefix`) and
`group` label, plus the two lazily populated fingerprint fields `hash` and
`mtime` (Python `None` = not yet computed). -/
structure ManagedFile where
  path : String
  key : Option String := none
  pfx : Option String := none
  group : Option String := none
  hash : Option String := none
  mtime : Option Int := none
deriving DecidableEq, Repr

/-- `ManagedFile.copy`: value copy of the entity (in the pure model the copied
value is the same value; object identity is modelled explicitly by the heap
development further below where aliasing matters). -/
def ManagedFile.copy (mf : ManagedFile) : ManagedFile := mf

/-- `ManagedFile.update_hash(copy=False)`: recompute the hash from the file system. -/
def ManagedFile.update_hash (fs : FS) (mf : ManagedFile) : ManagedFile :=
  { mf with hash := some (fs.hashOf mf.path) }

/-- `ManagedFile.update_mtime(copy=False)`: re-read the mtime from the file system. -/
def ManagedFile.update_mtime (fs : FS) (mf : ManagedFile) : ManagedFile :=
  { mf with mtime := some (fs.mtimeOf mf.path) }

/-- `ManagedFile.update(copy=False, update_hash, update_mtime)`. -/
def ManagedFile.update (fs : FS) (mf : ManagedFile)
    (update_hash update_mtime : Bool) : ManagedFile :=
  let mf := if update_hash then mf.update_hash fs else mf
  if update_mtime then mf.update_mtime fs else mf

/-- `ManagedFile.defer_hash`: compute the hash only if still unset. -/
def ManagedFile.defer_hash (fs : FS) (mf : ManagedFile) : ManagedFile :=
  if mf.hash = none then mf.update_hash fs else mf

/-- `ManagedFile.defer_mtime`: read the mtime only if still unset. -/
def ManagedFile.defer_mtime (fs : FS) (mf : ManagedFile) : ManagedFile :=
  if mf.mtime = none then mf.update_mtime fs else mf

/-- `ManagedFile.defer_update` = `defer_hash` then `defer_mtime`. -/
def ManagedFile.defer_update (fs : FS) (mf : ManagedFile) : ManagedFile :=
  (mf.defer_hash fs).defer_mtime fs

/-- `filecmp.cmp(a, b, shallow=True)` as used by the `strict` comparison mode:
equal stat signatures (size, mtime) short-circuit to `true`; otherwise unequal
sizes give `false` and equal sizes fall back to a byte comparison. -/
def filecmpShallow (fs : FS) (p q : String) : Bool :=
  let sig := fun x => ((fs.contentOf x).length, fs.mtimeOf x)
  if sig p = sig q then true
  else if (fs.contentOf p).length ≠ (fs.contentOf q).length then false
  else fs.contentOf p = fs.contentOf q

/-- The five comparison modes accepted by `is_same_file_with` / `get_updates`. -/
def awareSet : List String := ["mtime_only", "hash_only", "mtime_aware", "both", "strict"]

/-- Body of `ManagedFile.is_same_file_with` for a validated mode.  The lazy
`defer_*` population of both operands is reflected by deferring against the
file-system environment before comparing; Python compares the (possibly `None`)
fields with `==`, which is `Option` equality here. -/
def isSameFileCore (fs : FS) (self other : ManagedFile) (aware : String) : Bool :=
  if aware = "mtime_only" then
    let s := self.defer_mtime fs
    let o := other.defer_mtime fs
    s.mtime = o.mtime
  else if aware = "hash_only" then
    let s := self.defer_hash fs
    let o := other.defer_hash fs
    s.hash = o.hash
  else if aware = "mtime_aware" then
    let s := self.defer_mtime fs
    let o := other.defer_mtime fs
    if s.mtime = o.mtime then true
    else
      let s := s.defer_hash fs
      let o := o.defer_hash fs
      s.hash = o.hash
  else if aware = "both" then
    let s := self.defer_update fs
    let o := other.defer_update fs
    s.mtime = o.mtime && s.hash = o.hash
  else if aware = "strict" then
    filecmpShallow fs self.path other.path
  else
    false

/-- `ManagedFile.is_same_file_with(other, aware)`; `none` models the
`ValueError` raised on an unrecognized mode. -/
def is_same_file_with (fs : FS) (self other : ManagedFile) (aware : String) :
    Option Bool :=
  if aware ∈ awareSet then some (isSameFileCore fs self other aware) else none

/-- `snapshot.SnapshotTableKey`: the constructor coerces `None` components to
the empty string, so the stored components are plain strings. -/
structure SnapshotTableKey where
  key : String := ""
  pfx : String := ""
  path : String := ""
deriving DecidableEq, Repr

/-- `SnapshotTableKey(key, prefix, path)` applied to the optional attributes of
a `ManagedFile` (`None` becomes `''`). -/
def SnapshotTableKey.ofFile (mf : ManagedFile) : SnapshotTableKey :=
  { key := mf.key.getD "", pfx := mf.pfx.getD "", path := mf.path }

/-- `SnapshotTableKey.__str__`: the serialized form `key|prefix|path`. -/
def SnapshotTableKey.toStr (k : SnapshotTableKey) : String :=
  k.key ++ "|" ++ k.pfx ++ "|" ++ k.path

/-- `SnapshotTableKey.__eq__` compares the serialized strings; `__hash__`
hashes the serialized string, so hash-equality coincides with this test. -/
def skEqb (a b : SnapshotTableKey) : Bool := a.toStr = b.toStr

/-- Dictionary lookup keyed by `SnapshotTableKey` (Python dict membership and
indexing both go through `__hash__`/`__eq__`, i.e. through `skEqb`). -/
def lookupSK (t : List (SnapshotTableKey × ManagedFile)) (k : SnapshotTableKey) :
    Option ManagedFile :=
  match t with
  | [] => none
  | (k', v) :: rest => if skEqb k' k then some v else lookupSK rest k

/-- `snapshot.get_updates(table_cur, table_prev, aware)`, faithfully including
the comparison target of the source: a slot present in both tables is compared
against `table_cur[key]` (the current table's own entry).  `none` models the
`ValueError` on an unrecognized mode. -/
def get_updates (fs : FS)
    (table_cur table_prev : List (SnapshotTableKey × ManagedFile))
    (aware : String) : Option (List (SnapshotTableKey × ManagedFile)) :=
  if aware ∈ awareSet then
    some <| table_cur.foldl (fun updates kv =>
      let (key, mf_cur) := kv
      match lookupSK table_prev key with
      | none => updates ++ [(key, mf_cur.copy)]
      | some _ =>
        match lookupSK table_cur key with
        | none => updates
        | some target =>
          if isSameFileCore fs mf_cur target aware then updates
          else updates ++ [(key, mf_cur.copy)]) []
  else none

/-! ## History store (`database.py`) and the incremental cache writer -/

/-- A hash-table record `(path, key, tag, refer, group, prefix, hash, time,
mtime)`.  Optional string attributes are stored as `''` by `as_hash_table`, so
the string columns are plain strings; an unset mtime is stored as `NaN`, which
SQLite turns into `NULL`, modelled by `Option Int` (SQL equality on `NULL` is
never true, see `mtimeSqlEq`). -/
structure Row where
  path : String
  key : String
  tag : String
  refer : String
  group : String
  pfx : String
  hash : String
  time : Int
  mtime : Option Int
deriving DecidableEq, Repr

/-- SQL equality on the nullable `mtime` column: `NULL = x` is not a match. -/
def mtimeSqlEq (a b : Option Int) : Bool :=
  match a, b with
  | some x, some y => x = y
  | _, _ => false

/-- One row of the temporary `current` table built by `search_history`:
`(path, key, hash, mtime)` of a managed file. -/
structure Cur where
  path : String
  key : String
  hash : String
  mtime : Option Int
deriving DecidableEq, Repr

/-- `INSERT OR REPLACE` into the `current` table (`UNIQUE(path, key)`): a later
row with the same `(path, key)` replaces the earlier one in place. -/
def upsertCur1 (t : List Cur) (c : Cur) : List Cur :=
  if t.any (fun x => x.path = c.path ∧ x.key = c.key) then
    t.map (fun x => if x.path = c.path ∧ x.key = c.key then c else x)
  else t ++ [c]

/-- Bulk `INSERT OR REPLACE` of the current file set. -/
def buildCurrent (cs : List Cur) : List Cur := cs.foldl upsertCur1 []

/-- The join condition of `search_history` for a given `aware` setting
(`"hash"`, `"mtime"` or `"both"`): equal `(path, key)` plus equality of the
selected fingerprint columns. -/
def rowMatches (h : Row) (c : Cur) (aware : String) : Bool :=
  h.path = c.path && h.key = c.key &&
    (if aware = "hash" then h.hash = c.hash
     else if aware = "mtime" then mtimeSqlEq h.mtime c.mtime
     else h.hash = c.hash && mtimeSqlEq h.mtime c.mtime)

/-- The joined row set of `search_history`: history rows restricted to
`(path, key)` pairs present in `current` (the inner join), then joined against
`current` on the `aware` condition.  `current` is unique on `(path, key)`, so
each history row survives at most once. -/
def matchingRows (history : List Row) (cur : List Cur) (aware : String) : List Row :=
  (history.filter (fun h => cur.any (fun c => h.path = c.path ∧ h.key = c.key))).filter
    (fun h => cur.any (fun c => rowMatches h c aware))

/-- Fold step selecting the maximal-`time` row; the first row encountered wins
ties, modelling one fixed scan order for the unspecified `ROW_NUMBER` tie order
of SQLite. -/
def laterRow (a r : Row) : Row := if r.time > a.time then r else a

/-- The maximal-`time` row of a candidate list (`ROW_NUMBER() OVER (PARTITION
BY path ORDER BY time DESC) = 1`), `none` on an empty partition. -/
def pickLatest : List Row → Option Row
  | [] => none
  | r :: rs => some (rs.foldl laterRow r)

/-- `database.search_history(db, name, df, mode, aware)`: the current rows are
deduplicated on `(path, key)` by `INSERT OR REPLACE`, then either every joined
history row is returned (`mode = "all"`) or, per distinct `path`, only the
most-recent-by-`time` joined row (`mode = "recent"`).  `none` models the SQL
building failing on an unrecognized mode/aware (in the source an unknown
`aware` leaves `cond` unbound and an unknown `mode` leaves the query unbound,
both crashing before any result is produced). -/
def search_history (history : List Row) (cs : List Cur)
    (mode aware : String) : Option (List Row) :=
  if ¬ (aware = "hash" ∨ aware = "mtime" ∨ aware = "both") then none
  else
    let cur := buildCurrent cs
    let m := matchingRows history cur aware
    if mode = "all" then some m
    else if mode = "recent" then
      some (((m.map Row.path).dedup).filterMap
        (fun p => pickLatest (m.filter (fun r => r.path = p))))
    else none

/-- `INSERT OR REPLACE` into the history relation (`UNIQUE(path, key, tag)`):
any existing row with the same `(path, key, tag)` is deleted and the new row is
appended (SQLite re-inserts the replacement at a fresh rowid). -/
def upsertHist1 (t : List Row) (r : Row) : List Row :=
  t.filter (fun x => ¬(x.path = r.path ∧ x.key = r.key ∧ x.tag = r.tag)) ++ [r]

/-- `insert_or_replace_into_history`: sequential bulk upsert. -/
def upsertHistory (t : List Row) (rows : List Row) : List Row :=
  rows.foldl upsertHist1 t

/-! ## Snapshot (`snapshot.py`) -/

/-- Insertion into the Python dict backing `Snapshot.table`: an existing slot
(same `SnapshotTableKey` under `skEqb`) is overwritten in place, a new slot is
appended. -/
def dictInsertSK (t : List (SnapshotTableKey × ManagedFile))
    (k : SnapshotTableKey) (mf : ManagedFile) :
    List (SnapshotTableKey × ManagedFile) :=
  if t.any (fun kv => skEqb kv.1 k) then
    t.map (fun kv => if skEqb kv.1 k then (kv.1, mf) else kv)
  else t ++ [(k, mf)]

/-- `Snapshot.__init__`: the internal table maps `SnapshotTableKey(key, prefix,
path)` to the managed file, in file-list order (insertion-ordered dict). -/
def snapshotTable (files : List ManagedFile) :
    List (SnapshotTableKey × ManagedFile) :=
  files.foldl (fun t mf => dictInsertSK t (.ofFile mf) mf) []

/-- `Snapshot.update_table`: update every managed file's fingerprints in place. -/
def updateSnapshotTable (fs : FS) (t : List (SnapshotTableKey × ManagedFile))
    (update_hash update_mtime : Bool) : List (SnapshotTableKey × ManagedFile) :=
  if update_hash || update_mtime then
    t.map (fun kv => (kv.1, kv.2.update fs update_hash update_mtime))
  else t

/-- The record `Snapshot.as_hash_table` builds for one managed file: unset
string attributes become `''`, the `refer` column is the run's own tag when
`refer_self` is set and `''` otherwise. -/
def rowOfFile (tag : String) (time : Int) (refer_self : Bool)
    (mf : ManagedFile) : Row :=
  { path := mf.path
    key := mf.key.getD ""
    tag := tag
    refer := if refer_self then tag else ""
    group := mf.group.getD ""
    pfx := mf.pfx.getD ""
    hash := mf.hash.getD ""
    time := time
    mtime := mf.mtime }

/-- `Snapshot.as_hash_table(tag, timestamp, refer_self, update_hash,
update_mtime)` over the snapshot table (the tag/timestamp pair is taken
already parsed; `_parse_tag_and_timestamp` only forwards an explicit tag and
timestamp, which is the case exercised by the cache writer). -/
def as_hash_table (fs : FS) (t : List (SnapshotTableKey × ManagedFile))
    (tag : String) (time : Int) (refer_self : Bool)
    (update_hash update_mtime : Bool) : List Row :=
  t.map (fun kv => rowOfFile tag time refer_self
    (kv.2.update fs update_hash update_mtime))

/-- The `(path, key, hash, mtime)` projection `search_history` receives from
`Snapshot.search_history` (built by `as_hash_table`; only these four columns
enter the temporary `current` table). -/
def curOfFile (fs : FS) (update_hash update_mtime : Bool)
    (mf : ManagedFile) : Cur :=
  let mf := mf.update fs update_hash update_mtime
  { path := mf.path, key := mf.key.getD "", hash := mf.hash.getD "",
    mtime := mf.mtime }

/-- One merged row of `calc_incremental_difference`: the current record paired
with the `refer_history` column of the left merge (`none` = `NaN`, i.e. no
matching history row). -/
abbrev IncPair := Row × Option String

/-- The pandas left merge of the current table with the searched history on
`(path, key, prefix)`: each current row is paired with every matching history
row's `refer`, or with `none` when there is no match. -/
def mergeRefer (dfCurrent : List Row) (dfHistory : List Row) : List IncPair :=
  dfCurrent.flatMap (fun r =>
    let ms := dfHistory.filter
      (fun h => h.path = r.path ∧ h.key = r.key ∧ h.pfx = r.pfx)
    if ms.isEmpty then [(r, none)]
    else ms.map (fun h => (r, some h.refer)))

/-- `Snapshot.calc_incremental_difference(db, tag, timestamp, mode, aware,
update, return_index=True)`: the current rows carry `refer = tag`
(`refer_self=True`); for every merged row with a matching history row the
`refer` column is rewritten to the historical `refer`; the boolean mask (`idx`,
second component `= none`) marks genuinely new/changed rows. -/
def calc_incremental_difference (fs : FS)
    (t : List (SnapshotTableKey × ManagedFile)) (history : List Row)
    (tag : String) (time : Int) (mode aware : String) (update : Bool) :
    Option (List IncPair) :=
  let t := if update then updateSnapshotTable fs t true true else t
  let dfCurrent := as_hash_table fs t tag time true false false
  let cs := t.map (fun kv => curOfFile fs false false kv.2)
  match search_history history cs mode aware with
  | none => none
  | some dfHistory =>
    some ((mergeRefer dfCurrent dfHistory).map
      (fun pr => ({ pr.1 with refer := pr.2.getD pr.1.refer }, pr.2)))

/-- The observable outcome of one `cache_increments` run: the history relation
after the run, the list of source paths physically copied into the tag
directory, and the returned frame (the masked new/changed rows). -/
structure CacheResult where
  history : List Row
  copied : List String
  df : List Row
deriving DecidableEq, Repr

/-- `Snapshot.cache_increments(db, cache_root_dir, tag, ...)`: compute the
incremental difference, return early when the masked frame is empty (no copy,
no history write), otherwise copy exactly the masked files and upsert every
computed row (changed and unchanged) into the history relation. -/
def cache_increments (fs : FS)
    (t : List (SnapshotTableKey × ManagedFile)) (history : List Row)
    (tag : String) (time : Int) (mode aware : String) (update : Bool) :
    Option CacheResult :=
  match calc_incremental_difference fs t history tag time mode aware update with
  | none => none
  | some pairs =>
    let df := (pairs.filter (fun pr => pr.2 = none)).map Prod.fst
    if df.isEmpty then some { history := history, copied := [], df := [] }
    else
      some { history := upsertHistory history (pairs.map Prod.fst)
             copied := df.map Row.path
             df := df }

/-! ## Path arithmetic and the physical copy (`Snapshot._copy`) -/

/-- `pathlib.Path` reduced to what the copy routine inspects: whether the path
is absolute and its parts. -/
structure PyPath where
  absolute : Bool
  parts : List String
deriving DecidableEq, Repr

/-- `pathlib` path joining (`dest_dir / path`): when the right operand is an
absolute path it replaces the left operand entirely. -/
def pyJoin (a b : PyPath) : PyPath :=
  if b.absolute then b else { absolute := a.absolute, parts := a.parts ++ b.parts }

/-- `shutil.copy2(src, dst)` raises `SameFileError` when source and
destination are the same file; otherwise it records the performed copy (the
copy preserves metadata, hence the destination inherits the source mtime). -/
def copy2 (src dst : PyPath) : Option (PyPath × PyPath) :=
  if src = dst then none else some (src, dst)

/-- `Snapshot._copy(dest_dir, path_list)`: rejects an empty destination, then
copies each listed file to `dest_dir / path`; `none` models the raised
exception (`ValueError` on an empty destination, `SameFileError` from
`shutil`).  Returns the performed `(source, destination)` copies. -/
def snapshotCopy (dest_dir : PyPath) (path_list : List PyPath) :
    Option (List (PyPath × PyPath)) :=
  if dest_dir.parts.isEmpty then none
  else path_list.foldl (fun acc p => do
    let done ← acc
    let c ← copy2 p (pyJoin dest_dir p)
    return done ++ [c]) (some [])

/-! ## Resource registry (`context.py`) -/

/-- `managed.ManagedDirectory`: a directory-expansion rule.  The ignore set
always contains the two built-in cache-artifact names. -/
structure ManagedDirectory where
  path : String
  glob : String := "**/*"
  key : Option String := none
  group : Option String := none
  ignore : List String := ["__pycache__", ".ipynb_checkpoints"]
deriving DecidableEq, Repr

/-- A registry entry of a `Resource`: a plain-file rule or a directory rule. -/
inductive RRule where
  | file (mf : ManagedFile)
  | dir (d : ManagedDirectory)
deriving DecidableEq, Repr

/-- Key membership in the registry table (Python `key in self.table`). -/
def containsKey (t : List (String × RRule)) (k : String) : Bool :=
  t.any (fun kv => kv.1 = k)

/-- The ignore set handed to `ManagedDirectory.__init__`: the built-ins plus
the user-supplied names. -/
def mkIgnore (ignore : Option (List String)) : List String :=
  ["__pycache__", ".ipynb_checkpoints"] ++ ignore.getD []

/-- `Resource._add(key, path, glob, group, ignore)`: duplicate keys are
rejected before any other work (`KeyError`), a missing path raises
`FileNotFoundError` (spec name: `NotFoundError`), otherwise a file or
directory rule is appended to the insertion-ordered table.  The pair returned
is the table as left by the call together with the raised error, if any. -/
def resourceAdd1 (fs : FS) (t : List (String × RRule)) (key path glob : String)
    (group : Option String) (ignore : Option (List String)) :
    List (String × RRule) × Option String :=
  if containsKey t key then (t, some "KeyError")
  else if fs.kindOf path = 1 then
    (t ++ [(key, .file { path := path, key := some key, group := group })], none)
  else if fs.kindOf path = 2 then
    (t ++ [(key, .dir { path := path, glob := glob, key := some key,
                        group := group, ignore := mkIgnore ignore })], none)
  else (t, some "FileNotFoundError")

/-- `Resource.add` applied to a sequence or mapping argument: the entries are
registered one by one by `_add` with the surrounding `glob`/`group`/`ignore`
inherited; a raised error aborts the loop, leaving the entries registered so
far in the table (Python mutates `self.table` in place). -/
def resourceAddMany (fs : FS) (t : List (String × RRule))
    (entries : List (String × String)) (glob : String)
    (group : Option String) (ignore : Option (List String)) :
    List (String × RRule) × Option String :=
  entries.foldl (fun st e =>
    match st with
    | (t, some err) => (t, some err)
    | (t, none) => resourceAdd1 fs t e.1 e.2 glob group ignore) (t, none)

/-! ## Export of resource definitions (`as_dict`) -/

/-- The JSON-able dictionary `ManagedFile.as_dict` produces: an outer `none`
models an absent dictionary entry; the `mtime` entry additionally carries its
(possibly `None`) value. -/
structure FileDict where
  path : String
  key : Option String
  pfx : Option String
  group : Option String
  hash : Option String
  mtime : Option (Option Int)
deriving DecidableEq, Repr

/-- `ManagedFile.as_dict()` exactly as written in the source: each optional
entry is included when the corresponding attribute is set — except `mtime`,
whose guard tests `self.prefix` instead of `self.mtime`. -/
def fileAsDict (mf : ManagedFile) : FileDict :=
  { path := mf.path
    key := mf.key
    pfx := mf.pfx
    group := mf.group
    hash := mf.hash
    mtime := if mf.pfx ≠ none then some mf.mtime else none }

/-- Re-loading an exported file descriptor: `ManagedFile(**d)` — every absent
entry falls back to the constructor default `None`. -/
def fileFromDict (d : FileDict) : ManagedFile :=
  { path := d.path, key := d.key, pfx := d.pfx, group := d.group,
    hash := d.hash, mtime := (d.mtime.getD none) }

/-- Insertion into the Python dict comprehension of `Resource.as_dict` keyed by
`str(v.path)`: a later rule with the same path silently overwrites the earlier
entry. -/
def dictInsertS (t : List (String × FileDict)) (k : String) (v : FileDict) :
    List (String × FileDict) :=
  if t.any (fun kv => kv.1 = k) then
    t.map (fun kv => if kv.1 = k then (kv.1, v) else kv)
  else t ++ [(k, v)]

/-- `Resource.as_dict()` restricted to file rules (directory rules export the
analogous directory descriptor; the claims below only need the file case):
`{ str(v.path): v.as_dict() for v in table.values() }`. -/
def resourceAsDict (t : List (String × RRule)) : List (String × FileDict) :=
  t.foldl (fun acc kv =>
    match kv.2 with
    | .file mf => dictInsertS acc mf.path (fileAsDict mf)
    | .dir _ => acc) []

/-! ## Object identity: heap model for `Resource.files()` (frame property)

Python objects live on a heap and `Resource.files` hands out `v.copy()` for
plain-file rules and freshly constructed objects for directory expansions,
while `Snapshot.update_table` mutates the handed-out objects in place.  The
heap is a growable list of `ManagedFile` cells; registry rules hold references
(cell indices) for file rules. -/

structure Heap where
  cells : List ManagedFile
deriving Repr

/-- Read a heap cell (total: out-of-range reads yield a dummy file, the
well-formedness hypotheses of the theorems keep all reads in range). -/
def Heap.read (h : Heap) (i : Nat) : ManagedFile :=
  h.cells.getD i { path := "" }

/-- Allocate a fresh object holding `mf`; returns the new heap and the
reference. -/
def Heap.alloc (h : Heap) (mf : ManagedFile) : Heap × Nat :=
  (⟨h.cells ++ [mf]⟩, h.cells.length)

/-- Overwrite the object behind a reference (in-place mutation). -/
def Heap.write (h : Heap) (i : Nat) (mf : ManagedFile) : Heap :=
  ⟨h.cells.set i mf⟩

/-- A registry entry in the heap model: file rules are references to heap
cells, directory rules are immutable values. -/
inductive HRule where
  | file (ref : Nat)
  | dir (d : ManagedDirectory)
deriving DecidableEq, Repr

/-- `ManagedDirectory.files()`: enumerate `path.glob(glob)`, keep regular
files, sort, drop paths with an ignored segment, and construct fresh
`ManagedFile` objects carrying the directory as prefix (`utils.ignore_path`
tests the path parts against the ignore set). -/
def directoryFiles (fs : FS) (d : ManagedDirectory) : List ManagedFile :=
  let ps := ((fs.globOf d.path d.glob).filter (fun p => fs.kindOf p = 1)).mergeSort
    (fun a b => a ≤ b)
  (ps.filter (fun p => ¬ (p.splitOn "/").any (fun s => d.ignore.contains s))).map
    (fun p => { path := p, key := d.key, pfx := some d.path })

/-- Allocation of one fresh `ManagedFile` object, collecting its reference. -/
def allocStep (st : Heap × List Nat) (mf : ManagedFile) : Heap × List Nat :=
  ((st.1.alloc mf).1, st.2 ++ [(st.1.alloc mf).2])

/-- `Resource.files()` in the heap model: a file rule contributes a freshly
allocated copy of the registered object (`v.copy()`), a directory rule
contributes freshly constructed objects from its expansion.  Returns the grown
heap and the references handed to the caller. -/
def resourceFiles (fs : FS) (h : Heap) (t : List (String × HRule)) :
    Heap × List Nat :=
  t.foldl (fun st kv =>
    match kv.2 with
    | .file ref => allocStep st ((st.1.read ref).copy)
    | .dir d => (directoryFiles fs d).foldl allocStep st) (h, [])

/-- `Snapshot.update_table` in the heap model: refresh the fingerprints of
every referenced object in place. -/
def updateRefs (fs : FS) (h : Heap) (refs : List Nat) : Heap :=
  refs.foldl (fun h i => h.write i ((h.read i).update fs true true)) h

/-! ## Concrete scenario used by several claims -/

/-- A file-system environment for the concrete scenarios (all paths exist as
regular files; fingerprints in the scenarios are carried by the files
themselves, the runs below never refresh them). -/
def exFS : FS := ⟨fun _ => "H", fun _ => 9, fun _ => "c", fun _ => 1, fun _ _ => []⟩

/-- Managed file `x` with populated fingerprints. -/
def exX : ManagedFile := { path := "x", key := some "kx", hash := some "h", mtime := some 1 }

/-- Managed file `y` with populated fingerprints. -/
def exY : ManagedFile := { path := "y", key := some "ky", hash := some "g", mtime := some 2 }

/-- Two managed slots over the same path `p` under different keys. -/
def exP1 : ManagedFile := { path := "p", key := some "k1", hash := some "h", mtime := some 1 }

/-- Second key managing the same path `p`. -/
def exP2 : ManagedFile := { path := "p", key := some "k2", hash := some "h", mtime := some 1 }

/-- The history row written for `exX` by a first `cache_increments` run under
tag `T1` at time `10` (fresh copy, so `refer = tag`). -/
def exRowX : Row :=
  { path := "x", key := "kx", tag := "T1", refer := "T1", group := "", pfx := "",
    hash := "h", time := 10, mtime := some 1 }

/-! ## Claim C1 -/

/-- Claim C1 (code bug, `snapshot.py` line 81): `get_updates` compares the
current entry against `table_cur[key]` — the current table's own entry —
instead of `table_prev[key]`.  At a slot present in both tables whose previous
fingerprints differ from the current ones under mode `"both"`, the function
returns no update (`some []`), although the previous entry compares unequal to
the current entry under that mode (`isSameFileCore … = false`), so a changed
file is silently skipped. -/
theorem c1_get_updates_ignores_previous_entry :
    let cur : ManagedFile :=
      { path := "f", key := some "k", hash := some "h2", mtime := some 2 }
    let prev : ManagedFile :=
      { path := "f", key := some "k", hash := some "h1", mtime := some 1 }
    get_updates exFS [(.ofFile cur, cur)] [(.ofFile prev, prev)] "both" = some [] ∧
      isSameFileCore exFS cur prev "both" = false := by
  decide

/-! ## Claim C5 -/

/-- Claim C5 (code bug, `snapshot.py` `_copy`): `save_path = dest_dir / path`
drops `dest_dir` entirely when `path` is absolute (`pathlib` semantics), so for
a managed file whose identity is an absolute path the computed destination is
the source path itself — nothing is placed under `cache_root_dir/<tag>/…` and
`shutil.copy2` raises `SameFileError` (modelled by `none`). -/
theorem c5_absolute_path_escapes_cache_dir :
    let dest : PyPath := { absolute := true, parts := ["cache", "T1"] }
    let p : PyPath := { absolute := true, parts := ["data", "f.txt"] }
    pyJoin dest p = p ∧ snapshotCopy dest [p] = none := by
  decide

/-! ## Claim C9 -/

/-- Claim C9 (code bug, `managed.py` `ManagedFile.as_dict`): the export guard
for `mtime` tests `self.prefix` instead of `self.mtime`, so a file rule with a
computed mtime and no prefix loses its mtime on export/reload, although the
neighbouring `hash` survives; moreover `Resource.as_dict` keys the exported
document by `str(v.path)`, so two registry keys managing the same path
collapse into a single exported entry, and re-expanding cannot reproduce the
registry. -/
theorem c9_export_roundtrip_loses_fields :
    let mf : ManagedFile :=
      { path := "a.txt", key := some "k", hash := some "h", mtime := some 5 }
    let mfB : ManagedFile := { path := "a.txt", key := some "k2" }
    (fileFromDict (fileAsDict mf)).mtime = none ∧ mf.mtime = some 5 ∧
      fileFromDict (fileAsDict mf) ≠ mf ∧
      (resourceAsDict [("k", .file mf), ("k2", .file mfB)]).length = 1 := by
  decide

/-! ## Claim C7 -/

/-- Claim C7 counterexample: the keys `('a|b', '', 'c')` and `('a', 'b|', 'c')`
serialize to the same string `a|b||c`, hence compare equal (`__eq__` and
`__hash__` both go through `__str__`) although their `key` and `prefix`
components differ — so "same managed slot iff all three components match"
fails for components containing the separator character. -/
theorem c7_counterexample :
    skEqb { key := "a|b", pfx := "", path := "c" }
          { key := "a", pfx := "b|", path := "c" } = true ∧
      ({ key := "a|b", pfx := "", path := "c" } : SnapshotTableKey) ≠
        { key := "a", pfx := "b|", path := "c" } := by
  decide

/-- Splitting a character-list at a separator absent from both prefixes is
unambiguous. -/
theorem sep_split {l1 l2 l1' l2' : List Char} (h1 : '|' ∉ l1) (h1' : '|' ∉ l1')
    (h : l1 ++ '|' :: l2 = l1' ++ '|' :: l2') : l1 = l1' ∧ l2 = l2' := by
  induction l1 generalizing l1' with
  | nil =>
    cases l1' with
    | nil => simpa using h
    | cons c cs =>
      simp only [List.nil_append, List.cons_append, List.cons.injEq] at h
      exact absurd (h.1 ▸ List.mem_cons_self c cs) h1'
  | cons c cs ih =>
    cases l1' with
    | nil =>
      simp only [List.cons_append, List.nil_append, List.cons.injEq] at h
      exact absurd (h.1 ▸ List.mem_cons_self c cs) h1
    | cons c' cs' =>
      simp only [List.cons_append, List.cons.injEq] at h
      have := ih (fun hm => h1 (List.mem_cons_of_mem c hm))
        (fun hm => h1' (h.1 ▸ List.mem_cons_of_mem c' hm)) h.2
      exact ⟨by rw [h.1, this.1], this.2⟩

/-- Claim C7 as amended: slot equality coincides with equality of the
serialized strings `key|prefix|path`; componentwise equality always implies
slot equality, and conversely slot equality implies componentwise equality
whenever the `key` and `prefix` components are free of the separator `'|'`
(the `path` component may contain it). -/
theorem c7_amended (a b : SnapshotTableKey)
    (ha : '|' ∉ a.key.data ∧ '|' ∉ a.pfx.data)
    (hb : '|' ∉ b.key.data ∧ '|' ∉ b.pfx.data) :
    (skEqb a b = true ↔ a.toStr = b.toStr) ∧ (a = b → skEqb a b = true) ∧
      (skEqb a b = true → a = b) := by
  refine ⟨by simp [skEqb], fun h => by simp [skEqb, h], fun h => ?_⟩
  have hstr : a.toStr = b.toStr := by simpa [skEqb] using h
  have hdata : a.key.data ++ '|' :: (a.pfx.data ++ '|' :: a.path.data) =
      b.key.data ++ '|' :: (b.pfx.data ++ '|' :: b.path.data) := by
    have := congrArg String.data hstr
    simpa [SnapshotTableKey.toStr, String.data_append] using this
  obtain ⟨hk, rest⟩ := sep_split ha.1 hb.1 hdata
  obtain ⟨hp, hq⟩ := sep_split ha.2 hb.2 rest
  obtain ⟨ak, ap, aq⟩ := a
  obtain ⟨bk, bp, bq⟩ := b
  simp only [SnapshotTableKey.mk.injEq]
  refine ⟨?_, ?_, ?_⟩
  · cases ak; cases bk; exact congrArg String.mk hk
  · cases ap; cases bp; exact congrArg String.mk hp
  · cases aq; cases bq; exact congrArg String.mk hq

/-- Claim C7 witness: the amended equivalence applied to two separator-free
keys that differ only in their `path`. -/
theorem c7_amended_witness :
    ('|' ∉ ("k" : String).data ∧ '|' ∉ ("d" : String).data) ∧
      (skEqb { key := "k", pfx := "d", path := "u" }
             { key := "k", pfx := "d", path := "v" } = true ↔
        SnapshotTableKey.toStr { key := "k", pfx := "d", path := "u" } =
          SnapshotTableKey.toStr { key := "k", pfx := "d", path := "v" }) ∧
      (({ key := "k", pfx := "d", path := "u" } : SnapshotTableKey) =
          { key := "k", pfx := "d", path := "v" } →
        skEqb { key := "k", pfx := "d", path := "u" }
              { key := "k", pfx := "d", path := "v" } = true) ∧
      (skEqb { key := "k", pfx := "d", path := "u" }
             { key := "k", pfx := "d", path := "v" } = true →
        ({ key := "k", pfx := "d", path := "u" } : SnapshotTableKey) =
          { key := "k", pfx := "d", path := "v" }) :=
  ⟨by decide, c7_amended _ _ ⟨by decide, by decide⟩ ⟨by decide, by decide⟩⟩

/-! ## Claim C2: counterexample -/

/-- Claim C2 counterexample: file `x` is cached under `T1`; after a
modify-and-revert (fingerprints unchanged, `aware = "both"`) a second
`cache_increments` run under `T2` finds no masked row, returns early and
writes nothing — the resulting history holds only the `T1` row, so no history
row with `tag = T2` (let alone `refer = T1`) is produced for the `T2` run.
The file is indeed not copied again (`copied = []`). -/
theorem c2_counterexample :
    ((cache_increments exFS (snapshotTable [exX]) [] "T1" 10 "recent" "both" false).bind
        fun r1 =>
          cache_increments exFS (snapshotTable [exX]) r1.history "T2" 20 "recent" "both" false) =
      some { history := [exRowX], copied := [], df := [] } := by
  decide

/-! ## Claim C4: counterexample -/

/-- Claim C4 counterexample: a `cache_increments` run in which no file changed
(`x`'s fingerprints match the `T1` history row) computes a non-empty
incremental table whose row re-points `refer` to `T1` under the new tag `T2`,
but the early return skips the upsert: the history after the run is the old
one and contains no row of the computed table, so the recorded provenance does
not cover the run. -/
theorem c4_counterexample :
    calc_incremental_difference exFS (snapshotTable [exX]) [exRowX]
        "T2" 20 "recent" "both" false =
      some [({ path := "x", key := "kx", tag := "T2", refer := "T1", group := "",
               pfx := "", hash := "h", time := 20, mtime := some 1 }, some "T1")] ∧
      cache_increments exFS (snapshotTable [exX]) [exRowX]
          "T2" 20 "recent" "both" false =
        some { history := [exRowX], copied := [], df := [] } := by
  decide

/-! ## Claim C3: counterexample -/

/-- Claim C3 counterexample: with two managed slots over the same path `p`
(keys `k1`, `k2`), the `mode="recent"` history search partitions by `path`
alone and returns a single row for `p`, so on the second run the other slot
never resolves: the second `cache_increments` run reports a non-empty
changed-set (one row) and grows the history relation from 2 to 4 rows. -/
theorem c3_counterexample :
    ((cache_increments exFS (snapshotTable [exP1, exP2]) [] "T1" 10 "recent" "both" false).bind
        fun r1 =>
          (cache_increments exFS (snapshotTable [exP1, exP2]) r1.history
              "T2" 20 "recent" "both" false).map
            fun r2 => (r1.history.length, r2.df.length, r2.history.length)) =
      some (2, 1, 4) := by
  decide

/-! ## Claim C8 -/

/-- Claim C8 counterexample: with key `k` already registered, `add` applied to
a mapping registering `a ↦ q` and then `k ↦ q` raises the duplicate-key error
on the second entry but leaves the first entry registered: the table after the
call differs from the table before it (partial insert). -/
theorem c8_counterexample :
    let t0 : List (String × RRule) :=
      [("k", .file { path := "p", key := some "k" })]
    resourceAddMany exFS t0 [("a", "q"), ("k", "q")] "**/*" none none =
      (t0 ++ [("a", .file { path := "q", key := some "a" })], some "KeyError") ∧
      (resourceAddMany exFS t0 [("a", "q"), ("k", "q")] "**/*" none none).1 ≠ t0 := by
  decide

/-- An error state absorbs the rest of a multi-entry registration loop. -/
theorem resourceAddMany_error_absorbs (fs : FS) (es : List (String × String))
    (tb : List (String × RRule)) (e : String) (glob : String)
    (group : Option String) (ignore : Option (List String)) :
    es.foldl (fun st e' =>
      match st with
      | (t, some err) => (t, some err)
      | (t, none) => resourceAdd1 fs t e'.1 e'.2 glob group ignore)
      (tb, some e) = (tb, some e) := by
  induction es with
  | nil => rfl
  | cons x xs ih => simpa using ih

/-- Claim C8 as amended: a duplicate key always raises the duplicate-key error
and aborts the call at that entry — for a single-path call (`es₁ = es₂ = []`)
the registry is exactly what it was before the call, but when the duplicate
sits inside a sequence or mapping argument the entries registered before it
remain in the table (partial insert) and the entries after it are never
processed. -/
theorem c8_amended (fs : FS) (t t1 : List (String × RRule))
    (es1 es2 : List (String × String)) (k p glob : String)
    (group : Option String) (ignore : Option (List String))
    (h1 : resourceAddMany fs t es1 glob group ignore = (t1, none))
    (hk : containsKey t1 k = true) :
    resourceAddMany fs t (es1 ++ (k, p) :: es2) glob group ignore =
      (t1, some "KeyError") := by
  unfold resourceAddMany at h1 ⊢
  rw [List.foldl_append, h1]
  have hstep : resourceAdd1 fs t1 k p glob group ignore = (t1, some "KeyError") := by
    unfold resourceAdd1
    rw [if_pos hk]
  simp only [List.foldl_cons, hstep]
  exact resourceAddMany_error_absorbs fs es2 t1 "KeyError" glob group ignore

/-- Claim C8 witness: amended behaviour at a concrete registry — a duplicate
inside a two-entry mapping keeps the first entry and raises the error. -/
theorem c8_amended_witness :
    (resourceAddMany exFS [("k", .file { path := "p", key := some "k" })]
        [("a", "q")] "**/*" none none =
      ([("k", .file { path := "p", key := some "k" }),
        ("a", .file { path := "q", key := some "a" })], none) ∧
      containsKey [("k", RRule.file { path := "p", key := some "k" }),
        ("a", .file { path := "q", key := some "a" })] "k" = true) ∧
    resourceAddMany exFS [("k", .file { path := "p", key := some "k" })]
        ([("a", "q")] ++ ("k", "q") :: []) "**/*" none none =
      ([("k", .file { path := "p", key := some "k" }),
        ("a", .file { path := "q", key := some "a" })], some "KeyError") :=
  ⟨⟨by decide, by decide⟩,
    c8_amended exFS _ _ _ [] "k" "q" "**/*" none none (by decide) (by decide)⟩

/-! ## Claim C10 -/

/-- Freshness invariant of `Resource.files()`: the heap only grows by appended
cells and every handed-out reference lies beyond the original heap. -/
def FreshFrom (h : Heap) (st : Heap × List Nat) : Prop :=
  (∃ ext, st.1.cells = h.cells ++ ext) ∧ ∀ r ∈ st.2, h.cells.length ≤ r

/-- One allocation preserves the freshness invariant. -/
theorem allocStep_fresh {h : Heap} {st : Heap × List Nat} (mf : ManagedFile)
    (hst : FreshFrom h st) : FreshFrom h (allocStep st mf) := by
  obtain ⟨⟨ext, hcells⟩, hrefs⟩ := hst
  constructor
  · exact ⟨ext ++ [mf], by simp [allocStep, Heap.alloc, hcells]⟩
  · intro r hr
    rcases List.mem_append.1 hr with hr | hr
    · exact hrefs r hr
    · simp only [List.mem_singleton] at hr
      subst hr
      simp [allocStep, Heap.alloc, hcells]

/-- A fold of allocations preserves the freshness invariant. -/
theorem foldl_allocStep_fresh {h : Heap} (mfs : List ManagedFile)
    {st : Heap × List Nat} (hst : FreshFrom h st) :
    FreshFrom h (mfs.foldl allocStep st) := by
  induction mfs generalizing st with
  | nil => exact hst
  | cons mf mfs ih => exact ih (allocStep_fresh mf hst)

/-- `Resource.files()` only allocates: the original cells are untouched and
every returned reference is fresh. -/
theorem resourceFiles_fresh (fs : FS) (h : Heap) (t : List (String × HRule)) :
    FreshFrom h (resourceFiles fs h t) := by
  suffices hgen : ∀ st : Heap × List Nat, FreshFrom h st →
      FreshFrom h (t.foldl (fun st kv =>
        match kv.2 with
        | .file ref => allocStep st ((st.1.read ref).copy)
        | .dir d => (directoryFiles fs d).foldl allocStep st) st) by
    exact hgen (h, []) ⟨⟨[], by simp⟩, by simp⟩
  induction t with
  | nil => exact fun st hst => hst
  | cons kv rest ih =>
    intro st hst
    refine ih _ ?_
    match kv with
    | (k, .file ref) => exact allocStep_fresh _ hst
    | (k, .dir d) => exact foldl_allocStep_fresh _ hst

/-- In-place updates behind references beyond `n` leave the first `n` cells
untouched. -/
theorem updateRefs_preserves (fs : FS) (refs : List Nat) (n : Nat)
    (j : Nat) (hj : j < n) :
    ∀ h : Heap, (∀ r ∈ refs, n ≤ r) →
      (updateRefs fs h refs).cells[j]? = h.cells[j]? := by
  induction refs with
  | nil => intro h _; rfl
  | cons r rs ih =>
    intro h hrefs
    have hr : n ≤ r := hrefs r (List.mem_cons_self r rs)
    have hne : r ≠ j := fun hrj => absurd hj (by omega)
    calc (updateRefs fs h (r :: rs)).cells[j]?
        = (updateRefs fs (h.write r ((h.read r).update fs true true)) rs).cells[j]? := rfl
      _ = (h.write r ((h.read r).update fs true true)).cells[j]? :=
          ih _ (fun x hx => hrefs x (List.mem_cons_of_mem r hx))
      _ = h.cells[j]? := List.getElem?_set_ne hne

/-- Claim C10: `Resource.files()` hands out fresh objects (value copies for
plain-file rules, new constructions for directory expansions), so refreshing
the hash/mtime of every returned file in place — as `Snapshot.update_table`
does — leaves every `ManagedFile` object stored behind the Resource's own
registry table unchanged. -/
theorem c10_files_are_fresh_copies (fs : FS) (h : Heap)
    (t : List (String × HRule)) (key : String) (ref : Nat)
    (_hmem : (key, HRule.file ref) ∈ t) (href : ref < h.cells.length) :
    (updateRefs fs (resourceFiles fs h t).1 (resourceFiles fs h t).2).read ref =
      h.read ref := by
  obtain ⟨⟨ext, hcells⟩, hrefs⟩ := resourceFiles_fresh fs h t
  have h1 : (updateRefs fs (resourceFiles fs h t).1
      (resourceFiles fs h t).2).cells[ref]? = (resourceFiles fs h t).1.cells[ref]? :=
    updateRefs_preserves fs _ h.cells.length ref href _ hrefs
  have h2 : (resourceFiles fs h t).1.cells[ref]? = h.cells[ref]? := by
    rw [hcells]
    exact List.getElem?_append_left href
  simp only [Heap.read, List.getD_eq_getElem?_getD, h1, h2]

/-- Claim C10 witness: a registry holding one file rule over a one-cell heap;
the update of the returned fresh copy leaves the registered cell intact. -/
theorem c10_witness :
    (("k", HRule.file 0) ∈ [("k", HRule.file 0)] ∧
        0 < (Heap.mk [{ path := "x", key := some "kx" }]).cells.length) ∧
      (updateRefs exFS
          (resourceFiles exFS ⟨[{ path := "x", key := some "kx" }]⟩
            [("k", HRule.file 0)]).1
          (resourceFiles exFS ⟨[{ path := "x", key := some "kx" }]⟩
            [("k", HRule.file 0)]).2).read 0 =
        (Heap.mk [{ path := "x", key := some "kx" }]).read 0 :=
  ⟨⟨List.mem_singleton.2 rfl, by decide⟩,
    c10_files_are_fresh_copies exFS _ _ "k" 0 (List.mem_singleton.2 rfl) (by decide)⟩

/-! ## Claim C6 -/

/-- The maximal-row fold stays within the candidates. -/
theorem foldl_laterRow_mem (l : List Row) (a : Row) : l.foldl laterRow a ∈ a :: l := by
  induction l generalizing a with
  | nil => exact List.mem_singleton.2 rfl
  | cons r rs ih =>
    have := ih (laterRow a r)
    rcases List.mem_cons.1 this with h | h
    · rw [List.foldl_cons, h]
      unfold laterRow
      split
      · exact List.mem_cons_of_mem a (List.mem_cons_self r rs)
      · exact List.mem_cons_self a (r :: rs)
    · exact List.mem_cons_of_mem a (List.mem_cons_of_mem r h)

/-- The maximal-row fold dominates every candidate's time. -/
theorem foldl_laterRow_le (l : List Row) (a : Row) :
    ∀ x ∈ a :: l, x.time ≤ (l.foldl laterRow a).time := by
  induction l generalizing a with
  | nil => intro x hx; rw [List.mem_singleton.1 hx]; rfl
  | cons r rs ih =>
    intro x hx
    have hstep : a.time ≤ (laterRow a r).time ∧ r.time ≤ (laterRow a r).time := by
      unfold laterRow; split <;> omega
    rcases List.mem_cons.1 hx with h | h
    · rw [h]
      exact le_trans hstep.1 (ih (laterRow a r) _ (List.mem_cons_self _ _))
    · rcases List.mem_cons.1 h with h | h
      · rw [h]
        exact le_trans hstep.2 (ih (laterRow a r) _ (List.mem_cons_self _ _))
      · exact ih (laterRow a r) x (List.mem_cons_of_mem _ h)

/-- A picked row is one of the candidates. -/
theorem pickLatest_mem {l : List Row} {r : Row} (h : pickLatest l = some r) :
    r ∈ l := by
  cases l with
  | nil => cases h
  | cons a rs =>
    simp only [pickLatest, Option.some.injEq] at h
    exact h ▸ foldl_laterRow_mem rs a

/-- A picked row has maximal run time among the candidates. -/
theorem pickLatest_le {l : List Row} {r : Row} (h : pickLatest l = some r) :
    ∀ x ∈ l, x.time ≤ r.time := by
  cases l with
  | nil => cases h
  | cons a rs =>
    simp only [pickLatest, Option.some.injEq] at h
    exact fun x hx => h ▸ foldl_laterRow_le rs a x hx

/-- `pickLatest` returns a row exactly on non-empty candidate lists. -/
theorem pickLatest_eq_none_iff {l : List Row} : pickLatest l = none ↔ l = [] := by
  cases l <;> simp [pickLatest]

/-- Partition shape of the `mode="recent"` result: filtering the assembled
result to one path yields exactly that path's picked row (or nothing when the
path is outside the partition list). -/
theorem filterMap_pick_filter (M : List Row) (ps : List String) (hnd : ps.Nodup)
    (p : String) :
    ((ps.filterMap (fun q => pickLatest (M.filter (fun r => r.path = q)))).filter
        (fun r => r.path = p)) =
      if p ∈ ps then (pickLatest (M.filter (fun r => r.path = p))).toList else [] := by
  induction ps with
  | nil => simp
  | cons q qs ih =>
    have hnd' : qs.Nodup := hnd.of_cons
    have hq : q ∉ qs := by
      intro hmem
      exact (List.nodup_cons.1 hnd).1 hmem
    rcases hpick : pickLatest (M.filter (fun r => r.path = q)) with _ | r
    · simp only [List.filterMap_cons, hpick]
      rw [ih hnd']
      by_cases hpq : p = q
      · rw [if_neg (by rw [hpq]; exact hq), if_pos (by simp [hpq]), hpq, hpick]
        rfl
      · simp [List.mem_cons, hpq]
    · have hrq : r.path = q := by
        have := List.mem_filter.1 (pickLatest_mem hpick)
        simpa using this.2
      simp only [List.filterMap_cons, hpick]
      by_cases hpq : p = q
      · rw [List.filter_cons_of_pos (by simp [hrq, hpq]), ih hnd',
          if_neg (by rw [hpq]; exact hq), if_pos (by simp [hpq]), hpq, hpick]
        rfl
      · rw [List.filter_cons_of_neg
          (by simp only [hrq, decide_eq_true_eq]; exact fun hc => hpq hc.symm),
          ih hnd']
        simp [List.mem_cons, hpq]

/-- The conclusion of Claim C6, stated over the embedded `search_history`:
`mode="all"` returns exactly the joined matching rows; `mode="recent"` returns
a result that, filtered to any path with at least one matching history row, is
exactly one row — a matching row of that path with maximal run `time` — and,
filtered to any path without a matching row, is empty. -/
def C6Statement (history : List Row) (cs : List Cur) (aware : String) : Prop :=
  search_history history cs "all" aware =
    some (matchingRows history (buildCurrent cs) aware) ∧
  ∃ res, search_history history cs "recent" aware = some res ∧
    ∀ p : String,
      ((¬ ∃ h ∈ matchingRows history (buildCurrent cs) aware, h.path = p) →
        res.filter (fun r => r.path = p) = []) ∧
      ((∃ h ∈ matchingRows history (buildCurrent cs) aware, h.path = p) →
        ∃ r, res.filter (fun x => x.path = p) = [r] ∧
          r ∈ matchingRows history (buildCurrent cs) aware ∧ r.path = p ∧
          ∀ h ∈ matchingRows history (buildCurrent cs) aware,
            h.path = p → h.time ≤ r.time)

/-- Claim C6: for every current file set and history table (modulo the
`(path,key)` dedup of the temporary `current` table) and every `aware`
setting, `search_history` with `mode="all"` returns every matching historical
row, and with `mode="recent"` exactly one row per distinct matched path — the
matching row with the greatest run time (first in scan order on ties). -/
theorem c6_search_history (history : List Row) (cs : List Cur) (aware : String)
    (ha : aware = "hash" ∨ aware = "mtime" ∨ aware = "both") :
    C6Statement history cs aware := by
  have haval : (¬ (aware = "hash" ∨ aware = "mtime" ∨ aware = "both")) = False := by
    simp [ha]
  set M := matchingRows history (buildCurrent cs) aware with hM
  constructor
  · simp [search_history, haval]
  · refine ⟨((M.map Row.path).dedup).filterMap
      (fun p => pickLatest (M.filter (fun r => r.path = p))), ?_, ?_⟩
    · simp [search_history, haval]
    · intro p
      have hshape := filterMap_pick_filter M ((M.map Row.path).dedup)
        (List.nodup_dedup _) p
      constructor
      · intro hno
        have hnotin : p ∉ (M.map Row.path).dedup := by
          intro hmem
          rcases List.mem_map.1 (List.mem_dedup.1 hmem) with ⟨h, hh, hp⟩
          exact hno ⟨h, hh, hp⟩
        rw [hshape, if_neg hnotin]
      · rintro ⟨h, hh, hp⟩
        have hin : p ∈ (M.map Row.path).dedup :=
          List.mem_dedup.2 (List.mem_map.2 ⟨h, hh, hp⟩)
        have hgrp : h ∈ M.filter (fun r => r.path = p) :=
          List.mem_filter.2 ⟨hh, by simp [hp]⟩
        rcases hpick : pickLatest (M.filter (fun r => r.path = p)) with _ | r
        · rw [pickLatest_eq_none_iff] at hpick
          rw [hpick] at hgrp
          cases hgrp
        · refine ⟨r, ?_, ?_, ?_, ?_⟩
          · rw [hshape, if_pos hin, hpick]; rfl
          · exact (List.mem_filter.1 (pickLatest_mem hpick)).1
          · have := (List.mem_filter.1 (pickLatest_mem hpick)).2
            simpa using this
          · intro h' hh' hp'
            exact pickLatest_le hpick h' (List.mem_filter.2 ⟨hh', by simp [hp']⟩)

/-- Claim C6 witness: two historical rows for path `p` at times 1 and 5 both
matching the current row; `mode="recent"` keeps exactly the later one. -/
theorem c6_witness :
    ("both" = "hash" ∨ "both" = "mtime" ∨ ("both" : String) = "both") ∧
      C6Statement
        [{ path := "p", key := "k", tag := "T1", refer := "T1", group := "",
           pfx := "", hash := "h", time := 1, mtime := some 3 },
         { path := "p", key := "k", tag := "T2", refer := "T1", group := "",
           pfx := "", hash := "h", time := 5, mtime := some 3 }]
        [{ path := "p", key := "k", hash := "h", mtime := some 3 }] "both" :=
  ⟨Or.inr (Or.inr rfl),
    c6_search_history _ _ "both" (Or.inr (Or.inr rfl))⟩

/-! ## Claim C2: amended -/

/-- Claim C2 as amended: for every content fingerprint `(hx, mx)` of file `x`
(and any second file `y`), caching `x` under `T1`, reverting it to identical
fingerprints, and running `cache_increments` under `T2` yields a run whose
computed row for `x` carries `tag = T2` and `refer = T1` and whose bytes are
not copied again — and this row is recorded in the history relation whenever
the run's changed-set is non-empty (here: the new file `y`); a run with an
empty changed-set returns early and records nothing (see the counterexample). -/
theorem c2_amended_repoint_without_copy (fs : FS) (hx : String) (mx : Int)
    (hy : String) (my : Int) :
    cache_increments fs
        (snapshotTable [{ path := "x", key := some "kx", hash := some hx, mtime := some mx }])
        [] "T1" 10 "recent" "both" false =
      some { history := [{ path := "x", key := "kx", tag := "T1", refer := "T1",
                           group := "", pfx := "", hash := hx, time := 10, mtime := some mx }],
             copied := ["x"],
             df := [{ path := "x", key := "kx", tag := "T1", refer := "T1",
                      group := "", pfx := "", hash := hx, time := 10, mtime := some mx }] } ∧
    ∀ resB : CacheResult,
      cache_increments fs
          (snapshotTable [{ path := "x", key := some "kx", hash := some hx, mtime := some mx },
                          { path := "y", key := some "ky", hash := some hy, mtime := some my }])
          [{ path := "x", key := "kx", tag := "T1", refer := "T1",
             group := "", pfx := "", hash := hx, time := 10, mtime := some mx }]
          "T2" 20 "recent" "both" false = some resB →
        ({ path := "x", key := "kx", tag := "T2", refer := "T1", group := "",
           pfx := "", hash := hx, time := 20, mtime := some mx } : Row) ∈ resB.history ∧
        resB.copied = ["y"] ∧ "x" ∉ resB.copied := by
  constructor
  · rfl
  · intro resB hB
    have hcomp : cache_increments fs
        (snapshotTable [{ path := "x", key := some "kx", hash := some hx, mtime := some mx },
                        { path := "y", key := some "ky", hash := some hy, mtime := some my }])
        [{ path := "x", key := "kx", tag := "T1", refer := "T1",
           group := "", pfx := "", hash := hx, time := 10, mtime := some mx }]
        "T2" 20 "recent" "both" false =
      some { history := [{ path := "x", key := "kx", tag := "T1", refer := "T1",
                           group := "", pfx := "", hash := hx, time := 10, mtime := some mx },
                         { path := "x", key := "kx", tag := "T2", refer := "T1",
                           group := "", pfx := "", hash := hx, time := 20, mtime := some mx },
                         { path := "y", key := "ky", tag := "T2", refer := "T2",
                           group := "", pfx := "", hash := hy, time := 20, mtime := some my }],
             copied := ["y"],
             df := [{ path := "y", key := "ky", tag := "T2", refer := "T2",
                      group := "", pfx := "", hash := hy, time := 20, mtime := some my }] } := by
      simp [cache_increments, calc_incremental_difference, search_history, matchingRows,
        buildCurrent, upsertCur1, rowMatches, mtimeSqlEq, mergeRefer, as_hash_table,
        rowOfFile, curOfFile, snapshotTable, dictInsertSK, skEqb, SnapshotTableKey.ofFile,
        SnapshotTableKey.toStr, updateSnapshotTable, ManagedFile.update,
        ManagedFile.update_hash, ManagedFile.update_mtime, pickLatest, laterRow,
        upsertHistory, upsertHist1, ManagedFile.copy]
    rw [hB] at hcomp
    have hval := Option.some.inj hcomp
    subst hval
    refine ⟨?_, rfl, ?_⟩
    · simp
    · simp

/-- The outcome of the second run in the concrete C2 revert scenario. -/
def exResB : CacheResult :=
  { history := [{ path := "x", key := "kx", tag := "T1", refer := "T1",
                  group := "", pfx := "", hash := "h", time := 10, mtime := some 1 },
                { path := "x", key := "kx", tag := "T2", refer := "T1",
                  group := "", pfx := "", hash := "h", time := 20, mtime := some 1 },
                { path := "y", key := "ky", tag := "T2", refer := "T2",
                  group := "", pfx := "", hash := "g", time := 20, mtime := some 2 }],
    copied := ["y"],
    df := [{ path := "y", key := "ky", tag := "T2", refer := "T2",
             group := "", pfx := "", hash := "g", time := 20, mtime := some 2 }] }

/-- Claim C2 witness: the amended statement instantiated at concrete
fingerprints, with the second run's result computed concretely. -/
theorem c2_amended_witness :
    cache_increments exFS
        (snapshotTable [{ path := "x", key := some "kx", hash := some "h", mtime := some 1 }])
        [] "T1" 10 "recent" "both" false =
      some { history := [{ path := "x", key := "kx", tag := "T1", refer := "T1",
                           group := "", pfx := "", hash := "h", time := 10, mtime := some 1 }],
             copied := ["x"],
             df := [{ path := "x", key := "kx", tag := "T1", refer := "T1",
                      group := "", pfx := "", hash := "h", time := 10, mtime := some 1 }] } ∧
    (({ path := "x", key := "kx", tag := "T2", refer := "T1", group := "",
        pfx := "", hash := "h", time := 20, mtime := some 1 } : Row) ∈ exResB.history ∧
      exResB.copied = ["y"] ∧ "x" ∉ exResB.copied) :=
  ⟨(c2_amended_repoint_without_copy exFS "h" 1 "g" 2).1,
    (c2_amended_repoint_without_copy exFS "h" 1 "g" 2).2 exResB (by decide)⟩

/-! ## Claim C4: amended -/

/-- A freshly upserted row is a member of the single-row upsert result. -/
theorem mem_upsertHist1_self (t : List Row) (r : Row) : r ∈ upsertHist1 t r :=
  List.mem_append.2 (Or.inr (List.mem_singleton.2 rfl))

/-- A row that does not clash on `(path, key, tag)` with the inserted row
survives a single-row upsert. -/
theorem mem_upsertHist1_of_ne {t : List Row} {s : Row} (r : Row) (hs : s ∈ t)
    (hne : ¬(s.path = r.path ∧ s.key = r.key ∧ s.tag = r.tag)) :
    s ∈ upsertHist1 t r :=
  List.mem_append.2 (Or.inl (List.mem_filter.2 ⟨hs, decide_eq_true hne⟩))

/-- A present row survives a bulk upsert of rows it does not clash with. -/
theorem mem_upsertHistory_of_ne {s : Row} (rows : List Row) :
    ∀ t : List Row, s ∈ t →
      (∀ r ∈ rows, ¬(s.path = r.path ∧ s.key = r.key ∧ s.tag = r.tag)) →
      s ∈ upsertHistory t rows := by
  induction rows with
  | nil => intro t hs _; exact hs
  | cons r rs ih =>
    intro t hs hne
    exact ih _ (mem_upsertHist1_of_ne r hs (hne r (List.mem_cons_self r rs)))
      (fun x hx => hne x (List.mem_cons_of_mem r hx))

/-- Every row of a batch that is pairwise non-clashing on `(path, key, tag)`
lands in the history relation after the bulk upsert. -/
theorem mem_upsertHistory_self (rows : List Row)
    (hpw : rows.Pairwise
      (fun a b => ¬(a.path = b.path ∧ a.key = b.key ∧ a.tag = b.tag))) :
    ∀ t : List Row, ∀ r ∈ rows, r ∈ upsertHistory t rows := by
  induction rows with
  | nil => intro t r hr; cases hr
  | cons x rs ih =>
    intro t r hr
    rcases List.mem_cons.1 hr with h | h
    · rw [h]
      exact mem_upsertHistory_of_ne rs _ (mem_upsertHist1_self t x)
        (fun y hy => (List.pairwise_cons.1 hpw).1 y hy)
    · exact ih (List.pairwise_cons.1 hpw).2 _ r h

/-- Claim C4 as amended: whenever a `cache_increments` run has a non-empty
masked changed-set, it copies exactly the masked (new/changed) files and
upserts every row of the computed incremental table — changed rows and
unchanged re-pointed rows alike — into the history relation (the computed rows
being pairwise distinct on `(path, key, tag)`, as holds for snapshots with
pairwise distinct managed paths); a run whose changed-set is empty returns
early and leaves the history relation untouched (see the counterexample). -/
theorem c4_amended_upsert_covers_all_rows (fs : FS)
    (t : List (SnapshotTableKey × ManagedFile)) (history : List Row)
    (tag : String) (time : Int) (mode aware : String) (upd : Bool)
    (pairs : List IncPair) (res : CacheResult)
    (hcalc : calc_incremental_difference fs t history tag time mode aware upd =
      some pairs)
    (hrun : cache_increments fs t history tag time mode aware upd = some res)
    (hne : res.df ≠ [])
    (hpw : (pairs.map Prod.fst).Pairwise
      (fun a b => ¬(a.path = b.path ∧ a.key = b.key ∧ a.tag = b.tag))) :
    res.copied = ((pairs.filter (fun pr => pr.2 = none)).map Prod.fst).map Row.path ∧
      ∀ pr ∈ pairs, pr.1 ∈ res.history := by
  simp only [cache_increments, hcalc] at hrun
  by_cases hemp : ((pairs.filter (fun pr => pr.2 = none)).map Prod.fst).isEmpty = true
  · rw [if_pos hemp] at hrun
    have : res.df = [] := by
      have := Option.some.inj hrun
      rw [← this]
    exact absurd this hne
  · rw [if_neg hemp] at hrun
    have hres := (Option.some.inj hrun).symm
    subst hres
    refine ⟨rfl, fun pr hpr => ?_⟩
    exact mem_upsertHistory_self _ hpw history pr.1 (List.mem_map_of_mem Prod.fst hpr)

/-- Claim C4 witness: the first cache run of file `x` (fresh history) masks the
single row, copies it, and the upserted history covers the computed table. -/
theorem c4_amended_witness :
    (calc_incremental_difference exFS (snapshotTable [exX]) [] "T1" 10 "recent" "both" false =
        some [({ path := "x", key := "kx", tag := "T1", refer := "T1", group := "",
                 pfx := "", hash := "h", time := 10, mtime := some 1 }, none)] ∧
      cache_increments exFS (snapshotTable [exX]) [] "T1" 10 "recent" "both" false =
        some { history := [exRowX], copied := ["x"], df := [exRowX] } ∧
      CacheResult.df { history := [exRowX], copied := ["x"], df := [exRowX] } ≠ [] ∧
      (([({ path := "x", key := "kx", tag := "T1", refer := "T1", group := "",
            pfx := "", hash := "h", time := 10, mtime := some 1 }, none)] :
          List IncPair).map Prod.fst).Pairwise
        (fun a b => ¬(a.path = b.path ∧ a.key = b.key ∧ a.tag = b.tag))) ∧
    (CacheResult.copied { history := [exRowX], copied := ["x"], df := [exRowX] } =
        ((([({ path := "x", key := "kx", tag := "T1", refer := "T1", group := "",
               pfx := "", hash := "h", time := 10, mtime := some 1 }, none)] :
            List IncPair).filter (fun pr => pr.2 = none)).map Prod.fst).map Row.path ∧
      ∀ pr ∈ ([({ path := "x", key := "kx", tag := "T1", refer := "T1", group := "",
                  pfx := "", hash := "h", time := 10, mtime := some 1 }, none)] :
          List IncPair),
        pr.1 ∈ CacheResult.history { history := [exRowX], copied := ["x"], df := [exRowX] }) :=
  ⟨⟨by decide, by decide, by decide, by decide⟩,
    c4_amended_upsert_covers_all_rows exFS (snapshotTable [exX]) [] "T1" 10 "recent" "both"
      false _ _ (by decide) (by decide) (by decide) (by decide)⟩

/-! ## Claim C3: supporting lemmas -/

/-- Updating neither fingerprint leaves the managed file unchanged. -/
theorem update_false (fs : FS) (mf : ManagedFile) : mf.update fs false false = mf := rfl

/-- Inserting a slot absent from the dictionary appends it. -/
theorem dictInsertSK_fresh (t : List (SnapshotTableKey × ManagedFile))
    (k : SnapshotTableKey) (mf : ManagedFile)
    (h : t.any (fun kv => skEqb kv.1 k) = false) :
    dictInsertSK t k mf = t ++ [(k, mf)] := by
  unfold dictInsertSK
  rw [if_neg (by simp [h])]

/-- With pairwise distinct slot keys, the snapshot dictionary is the file list
itself (no overwriting happens). -/
theorem snapshotTable_eq_map (files : List ManagedFile)
    (hpw : files.Pairwise (fun a b =>
      skEqb (SnapshotTableKey.ofFile a) (SnapshotTableKey.ofFile b) = false)) :
    snapshotTable files = files.map (fun mf => (SnapshotTableKey.ofFile mf, mf)) := by
  suffices hgen : ∀ acc : List (SnapshotTableKey × ManagedFile),
      (∀ mf ∈ files, acc.any (fun kv => skEqb kv.1 (SnapshotTableKey.ofFile mf)) = false) →
      files.foldl (fun t mf => dictInsertSK t (.ofFile mf) mf) acc =
        acc ++ files.map (fun mf => (SnapshotTableKey.ofFile mf, mf)) by
    simpa using hgen [] (by intro mf _; rfl)
  induction files with
  | nil => intro acc _; simp
  | cons mf rest ih =>
    intro acc hacc
    rw [List.foldl_cons,
      dictInsertSK_fresh acc _ mf (hacc mf (List.mem_cons_self mf rest)),
      ih (List.pairwise_cons.1 hpw).2 _ ?_]
    · simp
    · intro mf' hmf'
      rw [List.any_append]
      have h1 : acc.any (fun kv => skEqb kv.1 (SnapshotTableKey.ofFile mf')) = false :=
        hacc mf' (List.mem_cons_of_mem mf hmf')
      have h2 : skEqb (SnapshotTableKey.ofFile mf) (SnapshotTableKey.ofFile mf') = false :=
        (List.pairwise_cons.1 hpw).1 mf' hmf'
      simp [h1, h2]

/-- Inserting a current row whose `(path, key)` is absent appends it. -/
theorem upsertCur1_fresh (t : List Cur) (c : Cur)
    (h : t.any (fun x => x.path = c.path ∧ x.key = c.key) = false) :
    upsertCur1 t c = t ++ [c] := by
  unfold upsertCur1
  rw [if_neg (by simp_all)]

/-- With pairwise distinct paths, the `INSERT OR REPLACE` construction of the
temporary `current` table is the identity. -/
theorem buildCurrent_eq_self (cs : List Cur)
    (hpw : cs.Pairwise (fun a b => a.path ≠ b.path)) :
    buildCurrent cs = cs := by
  suffices hgen : ∀ acc : List Cur,
      (∀ c ∈ cs, acc.any (fun x => x.path = c.path ∧ x.key = c.key) = false) →
      cs.foldl upsertCur1 acc = acc ++ cs by
    simpa using hgen [] (by intro c _; rfl)
  induction cs with
  | nil => intro acc _; simp
  | cons c rest ih =>
    intro acc hacc
    rw [List.foldl_cons, upsertCur1_fresh acc c (hacc c (List.mem_cons_self c rest)),
      ih (List.pairwise_cons.1 hpw).2 _ ?_]
    · simp
    · intro c' hc'
      rw [List.any_append]
      have h1 : acc.any (fun x => x.path = c'.path ∧ x.key = c'.key) = false :=
        hacc c' (List.mem_cons_of_mem c hc')
      have h2 : c.path ≠ c'.path := (List.pairwise_cons.1 hpw).1 c' hc'
      rw [h1]
      simp [h2]

/-- Members of a pairwise-distinct-path list are determined by their path. -/
theorem pairwise_path_eq {l : List ManagedFile}
    (hpw : l.Pairwise (fun a b => a.path ≠ b.path)) :
    ∀ a ∈ l, ∀ b ∈ l, a.path = b.path → a = b := by
  induction l with
  | nil => intro a ha; cases ha
  | cons x xs ih =>
    intro a ha b hb hab
    rcases List.mem_cons.1 ha with h | h <;> rcases List.mem_cons.1 hb with h' | h'
    · rw [h, h']
    · exact absurd (h ▸ hab) ((List.pairwise_cons.1 hpw).1 b h')
    · exact absurd (h' ▸ hab).symm ((List.pairwise_cons.1 hpw).1 a h)
    · exact ih (List.pairwise_cons.1 hpw).2 a h b h' hab

/-- The joined matching rows are drawn from the history relation. -/
theorem matchingRows_subset {history : List Row} {cur : List Cur} {aware : String}
    {h : Row} (hm : h ∈ matchingRows history cur aware) : h ∈ history :=
  (List.mem_filter.1 ((List.mem_filter.1 hm).1)).1

/-- Bulk-upserted relations only hold rows of the batch or of the base. -/
theorem mem_upsertHistory_cases (rows : List Row) :
    ∀ t : List Row, ∀ x ∈ upsertHistory t rows, x ∈ rows ∨ x ∈ t := by
  induction rows with
  | nil => intro t x hx; exact Or.inr hx
  | cons r rs ih =>
    intro t x hx
    rcases ih (upsertHist1 t r) x hx with h | h
    · exact Or.inl (List.mem_cons_of_mem r h)
    · rcases List.mem_append.1 h with h | h
      · exact Or.inr (List.mem_filter.1 h).1
      · exact Or.inl (List.mem_cons.2 (Or.inl (List.mem_singleton.1 h)))

/-- For every batch row, some batch row with the same `(path, key, tag)` slot
survives the bulk upsert (the last one wins on in-batch duplicates). -/
theorem upsertHistory_slot_survives (rows : List Row) :
    ∀ t : List Row, ∀ w ∈ rows, ∃ w', w' ∈ upsertHistory t rows ∧ w' ∈ rows ∧
      w'.path = w.path ∧ w'.key = w.key ∧ w'.tag = w.tag := by
  induction rows with
  | nil => intro t w hw; cases hw
  | cons r rs ih =>
    intro t w hw
    rcases List.mem_cons.1 hw with h | h
    · by_cases hcl : ∃ x ∈ rs, x.path = r.path ∧ x.key = r.key ∧ x.tag = r.tag
      · obtain ⟨x, hx, hxr⟩ := hcl
        obtain ⟨w', hw1, hw2, hw3, hw4, hw5⟩ := ih (upsertHist1 t r) x hx
        exact ⟨w', hw1, List.mem_cons_of_mem r hw2,
          by rw [hw3, hxr.1, h], by rw [hw4, hxr.2.1, h], by rw [hw5, hxr.2.2, h]⟩
      · have hsurv : r ∈ upsertHistory (upsertHist1 t r) rs :=
          mem_upsertHistory_of_ne rs _ (mem_upsertHist1_self t r)
            (fun y hy hclash => hcl ⟨y, hy, hclash.1.symm, hclash.2.1.symm, hclash.2.2.symm⟩)
        exact ⟨r, hsurv, List.mem_cons_self r rs, by rw [h], by rw [h], by rw [h]⟩
    · obtain ⟨w', hw1, hw2, hw3⟩ := ih (upsertHist1 t r) w h
      exact ⟨w', hw1, List.mem_cons_of_mem r hw2, hw3⟩

/-- The `(path, key, hash, mtime)` projection of a managed file when no
refresh is requested (what `search_history` receives during
`calc_incremental_difference`). -/
def plainCur (mf : ManagedFile) : Cur :=
  { path := mf.path, key := mf.key.getD "", hash := mf.hash.getD "", mtime := mf.mtime }

/-- The `mode="recent"` result of `search_history` over an already built
`current` table. -/
def recentOf (H : List Row) (cur : List Cur) : List Row :=
  ((matchingRows H cur "both").map Row.path).dedup.filterMap
    (fun p => pickLatest ((matchingRows H cur "both").filter (fun r => r.path = p)))

/-- The current rows a snapshot table contributes to `search_history` inside
`calc_incremental_difference` (no fingerprint refresh). -/
def curList (fs : FS) (t : List (SnapshotTableKey × ManagedFile)) : List Cur :=
  t.map (fun kv => curOfFile fs false false kv.2)

/-- The merged pairs computed by `calc_incremental_difference(mode="recent",
aware="both", update=False)`. -/
def incPairsOf (fs : FS) (t : List (SnapshotTableKey × ManagedFile))
    (H : List Row) (tag : String) (time : Int) : List IncPair :=
  (mergeRefer (as_hash_table fs t tag time true false false)
      (recentOf H (buildCurrent (curList fs t)))).map
    (fun pr => ({ pr.1 with refer := pr.2.getD pr.1.refer }, pr.2))

/-- `search_history` at the literal arguments of the incremental cache writer. -/
theorem search_history_recent_both (H : List Row) (cs : List Cur) :
    search_history H cs "recent" "both" = some (recentOf H (buildCurrent cs)) := rfl

/-- `calc_incremental_difference` at the cache writer's literal arguments. -/
theorem calc_recent_both (fs : FS) (t : List (SnapshotTableKey × ManagedFile))
    (H : List Row) (tag : String) (time : Int) :
    calc_incremental_difference fs t H tag time "recent" "both" false =
      some (incPairsOf fs t H tag time) := rfl

/-- The first component of every merged pair is a current row. -/
theorem mergeRefer_fst_mem {dfC dfH : List Row} {pr : IncPair}
    (h : pr ∈ mergeRefer dfC dfH) : pr.1 ∈ dfC := by
  obtain ⟨r, hr, hpr⟩ := List.mem_flatMap.1 h
  dsimp only at hpr
  split at hpr
  · rw [List.mem_singleton.1 hpr]
    exact hr
  · obtain ⟨x, _, hx⟩ := List.mem_map.1 hpr
    rw [← hx]
    exact hr

/-- Every current row contributes at least one merged pair. -/
theorem mergeRefer_covers {dfC dfH : List Row} {r : Row} (hr : r ∈ dfC) :
    ∃ pr ∈ mergeRefer dfC dfH, pr.1 = r := by
  rcases hms : dfH.filter
      (fun x => x.path = r.path ∧ x.key = r.key ∧ x.pfx = r.pfx) with _ | ⟨x, ms⟩
  · refine ⟨(r, none), List.mem_flatMap.2 ⟨r, hr, ?_⟩, rfl⟩
    dsimp only
    rw [hms]
    exact List.mem_singleton.2 rfl
  · refine ⟨(r, some x.refer), List.mem_flatMap.2 ⟨r, hr, ?_⟩, rfl⟩
    dsimp only
    rw [hms]
    exact List.mem_map.2 ⟨x, List.mem_cons_self x ms, rfl⟩

/-- A merged pair without a history match records the emptiness of its row's
match list. -/
theorem mergeRefer_none_src {dfC dfH : List Row} {pr : IncPair}
    (h : pr ∈ mergeRefer dfC dfH) (hnone : pr.2 = none) :
    pr.1 ∈ dfC ∧ dfH.filter
      (fun x => x.path = pr.1.path ∧ x.key = pr.1.key ∧ x.pfx = pr.1.pfx) = [] := by
  obtain ⟨r, hr, hpr⟩ := List.mem_flatMap.1 h
  dsimp only at hpr
  split at hpr
  · next hemp =>
    rw [List.mem_singleton.1 hpr]
    exact ⟨hr, List.isEmpty_iff.1 (by simpa using hemp)⟩
  · obtain ⟨x, _, hx⟩ := List.mem_map.1 hpr
    rw [← hx] at hnone
    cases hnone

/-- A current row with an empty match list yields its unmatched merged pair. -/
theorem mergeRefer_none_intro {dfC dfH : List Row} {r : Row} (hr : r ∈ dfC)
    (hms : dfH.filter
      (fun x => x.path = r.path ∧ x.key = r.key ∧ x.pfx = r.pfx) = []) :
    ((r, none) : IncPair) ∈ mergeRefer dfC dfH := by
  refine List.mem_flatMap.2 ⟨r, hr, ?_⟩
  dsimp only
  rw [hms]
  exact List.mem_singleton.2 rfl

/-- Any matching row is dominated by a member of the `mode="recent"` result
over the same path. -/
theorem recentOf_covers {H : List Row} {cur : List Cur} {w : Row}
    (hw : w ∈ matchingRows H cur "both") :
    ∃ h, h ∈ recentOf H cur ∧ h ∈ matchingRows H cur "both" ∧
      h.path = w.path ∧ w.time ≤ h.time := by
  have hp : w.path ∈ ((matchingRows H cur "both").map Row.path).dedup :=
    List.mem_dedup.2 (List.mem_map.2 ⟨w, hw, rfl⟩)
  have hgrp : w ∈ (matchingRows H cur "both").filter (fun r => r.path = w.path) :=
    List.mem_filter.2 ⟨hw, by simp⟩
  rcases hpick : pickLatest ((matchingRows H cur "both").filter
      (fun r => r.path = w.path)) with _ | h
  · rw [pickLatest_eq_none_iff.1 hpick] at hgrp
    cases hgrp
  · have hmem := List.mem_filter.1 (pickLatest_mem hpick)
    exact ⟨h, List.mem_filterMap.2 ⟨w.path, hp, hpick⟩, hmem.1,
      by simpa using hmem.2, pickLatest_le hpick w hgrp⟩

/-- The slot fields (all columns except `refer`) a current row of the
incremental table derives from its managed file. -/
def slotRow (w : Row) (mf : ManagedFile) (tag : String) (time : Int) : Prop :=
  w.path = mf.path ∧ w.key = mf.key.getD "" ∧ w.pfx = mf.pfx.getD "" ∧
    w.hash = mf.hash.getD "" ∧ w.mtime = mf.mtime ∧ w.time = time ∧ w.tag = tag

/-- Every computed incremental row is, up to `refer`, the hash-table row of one
of the snapshot's managed files. -/
theorem incPairs_fst_slot {fs : FS} {files : List ManagedFile} {H : List Row}
    {tag : String} {time : Int} {w : Row}
    (hw : w ∈ (incPairsOf fs (files.map fun mf => (SnapshotTableKey.ofFile mf, mf))
      H tag time).map Prod.fst) :
    ∃ mf ∈ files, slotRow w mf tag time := by
  obtain ⟨pr, hpr, hfst⟩ := List.mem_map.1 hw
  obtain ⟨q, hq, hpq⟩ := List.mem_map.1 hpr
  have hq1 : q.1 ∈ as_hash_table fs
      (files.map fun mf => (SnapshotTableKey.ofFile mf, mf)) tag time true false false :=
    mergeRefer_fst_mem hq
  obtain ⟨kv, hkv, hrow⟩ := List.mem_map.1 hq1
  obtain ⟨mf, hmf, hkvmf⟩ := List.mem_map.1 hkv
  refine ⟨mf, hmf, ?_⟩
  rw [← hfst, ← hpq]
  dsimp only
  rw [← hrow, ← hkvmf]
  exact ⟨rfl, rfl, rfl, rfl, rfl, rfl, rfl⟩

/-- Conversely, every managed file of the snapshot is represented, up to
`refer`, among the computed incremental rows. -/
theorem incPairs_fst_covers {fs : FS} {files : List ManagedFile} {H : List Row}
    {tag : String} {time : Int} {mf : ManagedFile} (hmf : mf ∈ files) :
    ∃ w ∈ (incPairsOf fs (files.map fun mf => (SnapshotTableKey.ofFile mf, mf))
      H tag time).map Prod.fst, slotRow w mf tag time := by
  have hrow : rowOfFile tag time true mf ∈ as_hash_table fs
      (files.map fun mf => (SnapshotTableKey.ofFile mf, mf)) tag time true false false := by
    refine List.mem_map.2 ⟨(SnapshotTableKey.ofFile mf, mf), List.mem_map.2 ⟨mf, hmf, rfl⟩, rfl⟩
  obtain ⟨pr, hpr, hfst⟩ := @mergeRefer_covers _
    (recentOf H (buildCurrent (curList fs
      (files.map fun mf => (SnapshotTableKey.ofFile mf, mf))))) _ hrow
  refine ⟨{ pr.1 with refer := pr.2.getD pr.1.refer }, ?_, ?_⟩
  · exact List.mem_map.2 ⟨({ pr.1 with refer := pr.2.getD pr.1.refer }, pr.2),
      List.mem_map.2 ⟨pr, hpr, rfl⟩, rfl⟩
  · rw [hfst]
    exact ⟨rfl, rfl, rfl, rfl, rfl, rfl, rfl⟩

/-- `cache_increments` at the cache writer's literal arguments. -/
theorem cache_increments_recent_both (fs : FS)
    (t : List (SnapshotTableKey × ManagedFile)) (H : List Row)
    (tag : String) (time : Int) :
    cache_increments fs t H tag time "recent" "both" false =
      (if (((incPairsOf fs t H tag time).filter
            (fun pr => pr.2 = none)).map Prod.fst).isEmpty then
        some { history := H, copied := [], df := [] }
      else
        some { history := upsertHistory H ((incPairsOf fs t H tag time).map Prod.fst)
               copied := (((incPairsOf fs t H tag time).filter
                 (fun pr => pr.2 = none)).map Prod.fst).map Row.path
               df := ((incPairsOf fs t H tag time).filter
                 (fun pr => pr.2 = none)).map Prod.fst }) := rfl

/-- The masked frame is empty exactly when every merged pair found a history
match. -/
theorem df_isEmpty_iff (pairs : List IncPair) :
    ((pairs.filter (fun pr => pr.2 = none)).map Prod.fst).isEmpty = true ↔
      ∀ pr ∈ pairs, pr.2 ≠ none := by
  rw [List.isEmpty_iff, List.map_eq_nil_iff, List.filter_eq_nil_iff]
  simp

/-- Whether a merged pair finds a history match does not depend on the run's
tag or timestamp (the merge joins on `(path, key, prefix)` only). -/
theorem incPairs_none_indep (fs : FS) (files : List ManagedFile) (H : List Row)
    (tagA : String) (timeA : Int) (tagB : String) (timeB : Int)
    (hall : ∀ pr ∈ incPairsOf fs (files.map fun mf => (SnapshotTableKey.ofFile mf, mf))
      H tagA timeA, pr.2 ≠ none) :
    ∀ pr ∈ incPairsOf fs (files.map fun mf => (SnapshotTableKey.ofFile mf, mf))
      H tagB timeB, pr.2 ≠ none := by
  intro pr hpr hnone
  obtain ⟨q, hq, hfq⟩ := List.mem_map.1 hpr
  have hq2 : q.2 = none := by
    rw [← hfq] at hnone
    exact hnone
  obtain ⟨hq1, hfil⟩ := mergeRefer_none_src hq hq2
  obtain ⟨kv, hkv, hkvq⟩ := List.mem_map.1 hq1
  obtain ⟨mf, hmf, hkvmf⟩ := List.mem_map.1 hkv
  have hrowA : rowOfFile tagA timeA true mf ∈ as_hash_table fs
      (files.map fun mf => (SnapshotTableKey.ofFile mf, mf)) tagA timeA true false false :=
    List.mem_map.2 ⟨(SnapshotTableKey.ofFile mf, mf), List.mem_map.2 ⟨mf, hmf, rfl⟩, rfl⟩
  have hfilA : (recentOf H (buildCurrent (curList fs
      (files.map fun mf => (SnapshotTableKey.ofFile mf, mf))))).filter
      (fun x => x.path = (rowOfFile tagA timeA true mf).path ∧
        x.key = (rowOfFile tagA timeA true mf).key ∧
        x.pfx = (rowOfFile tagA timeA true mf).pfx) = [] := by
    rw [← hkvq, ← hkvmf] at hfil
    exact hfil
  have hmergeA := mergeRefer_none_intro hrowA hfilA
  have hpairA : (({ rowOfFile tagA timeA true mf with
      refer := (none : Option String).getD (rowOfFile tagA timeA true mf).refer },
      (none : Option String)) : IncPair) ∈
      incPairsOf fs (files.map fun mf => (SnapshotTableKey.ofFile mf, mf)) H tagA timeA :=
    List.mem_map.2 ⟨(rowOfFile tagA timeA true mf, none), hmergeA, rfl⟩
  exact hall _ hpairA rfl

/-- After a run that upserted its full incremental table at a time strictly
later than every prior history row, the `mode="recent"` search resolves every
managed file of the snapshot to a row carrying that file's slot columns. -/
theorem recent_covers_after_run1 (fs : FS) (files : List ManagedFile)
    (H0 : List Row) (T1 : String) (t1 : Int)
    (hpop : ∀ mf ∈ files, mf.mtime ≠ none)
    (hpaths : files.Pairwise (fun a b => a.path ≠ b.path))
    (htime : ∀ r ∈ H0, r.time < t1)
    (mf : ManagedFile) (hmf : mf ∈ files) :
    ∃ h, h ∈ recentOf
        (upsertHistory H0 ((incPairsOf fs (files.map fun mf => (SnapshotTableKey.ofFile mf, mf))
          H0 T1 t1).map Prod.fst))
        (buildCurrent (curList fs (files.map fun mf => (SnapshotTableKey.ofFile mf, mf)))) ∧
      h.path = mf.path ∧ h.key = mf.key.getD "" ∧ h.pfx = mf.pfx.getD "" := by
  have hcur : buildCurrent (curList fs
      (files.map fun mf => (SnapshotTableKey.ofFile mf, mf))) = files.map plainCur := by
    have hrw : curList fs (files.map fun mf => (SnapshotTableKey.ofFile mf, mf)) =
        files.map plainCur := by
      unfold curList
      rw [List.map_map]
      rfl
    rw [hrw]
    exact buildCurrent_eq_self _ (List.pairwise_map.2 hpaths)
  have hc : plainCur mf ∈ buildCurrent (curList fs
      (files.map fun mf => (SnapshotTableKey.ofFile mf, mf))) := by
    rw [hcur]
    exact List.mem_map.2 ⟨mf, hmf, rfl⟩
  obtain ⟨m0, hm0⟩ := Option.ne_none_iff_exists'.1 (hpop mf hmf)
  -- the run-1 row for `mf` and its survivor in the upserted history
  obtain ⟨w, hwrows, hwslot⟩ := @incPairs_fst_covers fs files H0 T1 t1 mf hmf
  obtain ⟨w', hw'H1, hw'rows, hw'path, _, _⟩ :=
    upsertHistory_slot_survives _ H0 w hwrows
  obtain ⟨mf', hmf', hslot'⟩ := incPairs_fst_slot hw'rows
  have hmf'eq : mf' = mf :=
    pairwise_path_eq hpaths mf' hmf' mf hmf
      (by rw [← hslot'.1, hw'path, hwslot.1])
  rw [hmf'eq] at hslot'
  obtain ⟨hsp, hsk, hsx, hsh, hsm, hst, _⟩ := hslot'
  -- the survivor is a matching row
  have hw'match : w' ∈ matchingRows
      (upsertHistory H0 ((incPairsOf fs (files.map fun mf => (SnapshotTableKey.ofFile mf, mf))
        H0 T1 t1).map Prod.fst))
      (buildCurrent (curList fs (files.map fun mf => (SnapshotTableKey.ofFile mf, mf))))
      "both" := by
    refine List.mem_filter.2 ⟨List.mem_filter.2 ⟨hw'H1, ?_⟩, ?_⟩
    · refine List.any_eq_true.2 ⟨plainCur mf, hc, ?_⟩
      simp [plainCur, hsp, hsk]
    · refine List.any_eq_true.2 ⟨plainCur mf, hc, ?_⟩
      simp only [rowMatches, plainCur]
      rw [hsp, hsk, hsh, hsm, hm0]
      simp [mtimeSqlEq]
  obtain ⟨h, hres, hmatch, hpath, hge⟩ := recentOf_covers hw'match
  refine ⟨h, hres, by rw [hpath, hsp], ?_⟩
  -- the picked row is at least as recent as `t1`, hence comes from run 1
  have hh1 := matchingRows_subset hmatch
  rcases mem_upsertHistory_cases _ H0 h hh1 with hcase | hcase
  · obtain ⟨mf'', hmf'', hslot''⟩ := incPairs_fst_slot hcase
    have : mf'' = mf :=
      pairwise_path_eq hpaths mf'' hmf'' mf hmf (by rw [← hslot''.1, hpath, hsp])
    rw [this] at hslot''
    exact ⟨hslot''.2.1, hslot''.2.2.1⟩
  · exfalso
    have hlt := htime h hcase
    rw [hst] at hge
    omega

/-- Claim C3 as amended: two successive `cache_increments` runs on the same
snapshot state with no intervening modification — provided the managed files
have pairwise distinct paths and pairwise distinct table slots, populated
mtimes, and the first run is timestamped strictly later than every prior
history row — produce an empty changed-set on the second run, which leaves the
history relation exactly as the first run left it.  Without the distinct-path
proviso the claim fails (see the counterexample). -/
theorem c3_amended_idempotent (fs : FS) (files : List ManagedFile)
    (H0 : List Row) (T1 T2 : String) (t1 t2 : Int)
    (hpop : ∀ mf ∈ files, mf.mtime ≠ none)
    (hpaths : files.Pairwise (fun a b => a.path ≠ b.path))
    (hkeys : files.Pairwise (fun a b =>
      skEqb (SnapshotTableKey.ofFile a) (SnapshotTableKey.ofFile b) = false))
    (htime : ∀ r ∈ H0, r.time < t1)
    (r1 r2 : CacheResult)
    (h1 : cache_increments fs (snapshotTable files) H0 T1 t1 "recent" "both" false = some r1)
    (h2 : cache_increments fs (snapshotTable files) r1.history T2 t2
      "recent" "both" false = some r2) :
    r2.df = [] ∧ r2.history = r1.history := by
  rw [snapshotTable_eq_map files hkeys] at h1 h2
  rw [cache_increments_recent_both] at h1 h2
  by_cases hemp1 : (((incPairsOf fs (files.map fun mf => (SnapshotTableKey.ofFile mf, mf))
      H0 T1 t1).filter (fun pr => pr.2 = none)).map Prod.fst).isEmpty = true
  · -- run 1 found nothing to do: run 2 repeats the same search over `H0`
    rw [if_pos hemp1] at h1
    have hist1 : r1.history = H0 := by
      rw [← Option.some.inj h1]
    rw [hist1] at h2
    have hall1 := (df_isEmpty_iff _).1 hemp1
    have hall2 := incPairs_none_indep fs files H0 T1 t1 T2 t2 hall1
    rw [if_pos ((df_isEmpty_iff _).2 hall2)] at h2
    have hr2 := Option.some.inj h2
    refine ⟨by rw [← hr2], by rw [← hr2, hist1]⟩
  · -- run 1 upserted its full table: run 2 resolves every slot to a run-1 row
    rw [if_neg hemp1] at h1
    have hist1 : r1.history = upsertHistory H0
        ((incPairsOf fs (files.map fun mf => (SnapshotTableKey.ofFile mf, mf))
          H0 T1 t1).map Prod.fst) := by
      rw [← Option.some.inj h1]
    have hall2 : ∀ pr ∈ incPairsOf fs
        (files.map fun mf => (SnapshotTableKey.ofFile mf, mf))
        r1.history T2 t2, pr.2 ≠ none := by
      intro pr hpr hnone
      obtain ⟨q, hq, hfq⟩ := List.mem_map.1 hpr
      have hq2 : q.2 = none := by rw [← hfq] at hnone; exact hnone
      obtain ⟨hq1, hfil⟩ := mergeRefer_none_src hq hq2
      obtain ⟨kv, hkv, hkvq⟩ := List.mem_map.1 hq1
      obtain ⟨mf, hmf, hkvmf⟩ := List.mem_map.1 hkv
      have hcover := recent_covers_after_run1 fs files H0 T1 t1 hpop hpaths htime mf hmf
      obtain ⟨h, hres, hhp, hhk, hhx⟩ := hcover
      have hmem : h ∈ (recentOf r1.history
          (buildCurrent (curList fs
            (files.map fun mf => (SnapshotTableKey.ofFile mf, mf))))).filter
          (fun x => x.path = q.1.path ∧ x.key = q.1.key ∧ x.pfx = q.1.pfx) := by
        refine List.mem_filter.2 ⟨?_, ?_⟩
        · rw [hist1]
          exact hres
        · rw [← hkvq, ← hkvmf]
          exact decide_eq_true ⟨hhp, hhk, hhx⟩
      rw [hfil] at hmem
      cases hmem
    rw [if_pos ((df_isEmpty_iff _).2 hall2)] at h2
    have hr2 := Option.some.inj h2
    refine ⟨by rw [← hr2], by rw [← hr2]⟩

/-- Claim C3 witness: a single populated managed file, fresh history; the
second run's changed-set is empty and the history is unchanged. -/
theorem c3_amended_witness :
    ((∀ mf ∈ [exX], mf.mtime ≠ none) ∧
      ([exX].Pairwise (fun a b => a.path ≠ b.path)) ∧
      ([exX].Pairwise (fun a b =>
        skEqb (SnapshotTableKey.ofFile a) (SnapshotTableKey.ofFile b) = false)) ∧
      (∀ r ∈ ([] : List Row), r.time < 10) ∧
      cache_increments exFS (snapshotTable [exX]) [] "T1" 10 "recent" "both" false =
        some { history := [exRowX], copied := ["x"], df := [exRowX] } ∧
      cache_increments exFS (snapshotTable [exX])
          (CacheResult.history { history := [exRowX], copied := ["x"], df := [exRowX] })
          "T2" 20 "recent" "both" false =
        some { history := [exRowX], copied := [], df := [] }) ∧
    (CacheResult.df { history := [exRowX], copied := [], df := [] } = [] ∧
      CacheResult.history { history := [exRowX], copied := [], df := [] } =
        CacheResult.history { history := [exRowX], copied := ["x"], df := [exRowX] }) :=
  ⟨⟨by decide, by decide, by decide, by decide, by decide, by decide⟩,
    c3_amended_idempotent exFS [exX] [] "T1" "T2" 10 20 (by decide) (by decide)
      (by decide) (by decide) _ _ (by decide) (by decide)⟩

end Skycache
